import Mathlib

/-!
Shallow embedding of the deepBlink prediction pipeline
(`src/deepblink/cli.py` and `src/deepblink/cli/_predict.py`).

Pixel values are rationals, image shapes are naturals.  Fallible Python
code (raising `ValueError` etc.) is embedded with `Except String`.
Functions imported by the CLI from modules that are not part of the
source tree (`deepblink.data`, `deepblink.util`, `deepblink.inference`)
are modelled from the specification and marked as such in their doc
comments.
-/

namespace DeepBlink

/-- A 2D plane: a list of rows of rational pixel values. -/
abbrev Plane := List (List ℚ)

/-- Height of a plane (`image.shape[0]`). -/
def planeH (p : Plane) : Nat := p.length

/-- Width of a plane (`image.shape[1]`, length of the first row). -/
def planeW (p : Plane) : Nat := (p.headD []).length

/-- Pixel access with default 0 outside the stored entries. -/
def pixGet (p : Plane) (i j : Nat) : ℚ := (p.getD i []).getD j 0

/-- Embedding of `np.max(image)`: the maximum entry of the flattened
array; `np.max` raises `ValueError` on a zero-size array, embedded as
`Except.error`. -/
def npMax (p : Plane) : Except String ℚ :=
  match p.flatten with
  | [] => .error "zero-size array to reduction operation maximum"
  | v :: vs => .ok (vs.foldl max v)

/-- Elementwise division of a plane by a scalar
(`image /= np.max(image)`, cli.py line 167). -/
def divPlane (p : Plane) (m : ℚ) : Plane :=
  p.map (fun row => row.map (fun v => v / m))

/-- The normalisation step of `predict_baseline` (cli.py line 167):
evaluate `np.max(image)` (which may raise) and divide the plane by it
in place.  Note that numpy float division by a zero maximum produces
non-finite values but raises no exception, so the division itself is
total here. -/
def normalizeStep (p : Plane) : Except String Plane := do
  let mx ← npMax p
  pure (divPlane p mx)

/-- Modelled from the spec: `deepblink.data.next_multiple` (imported by
cli.py line 41 but its module is not in the source tree).  The spec
gives the padding amount as `ceil(H / tile_edge) * tile_edge - H`, so
`next_multiple value multiple = ceil(value / multiple) * multiple`. -/
def next_multiple (value multiple : Nat) : Nat :=
  ((value + multiple - 1) / multiple) * multiple

/-- Index mapping of numpy reflect-mode padding along one axis of size
`n`: positions `0..n-1` map to themselves and positions beyond mirror
across the last element without repeating it, periodically. -/
def reflectIdx (n i : Nat) : Nat :=
  if n ≤ 1 then 0
  else if i % (2 * n - 2) < n then i % (2 * n - 2)
  else 2 * n - 2 - i % (2 * n - 2)

/-- Embedding of `np.pad(image, ((0, pad_bottom), (0, pad_right)),
"reflect")` (cli.py line 170): bottom and right edges only. -/
def padReflect (p : Plane) (padB padR : Nat) : Plane :=
  (List.range (planeH p + padB)).map (fun i =>
    (List.range (planeW p + padR)).map (fun j =>
      pixGet p (reflectIdx (planeH p) i) (reflectIdx (planeW p) j)))

/-- Tile `(i, j)` of the row-major tile partition with edge `T`:
`skimage.util.view_as_windows(image, (T, T), step=T)[i, j]`
(cli.py lines 173-175). -/
def tileAt (p : Plane) (T i j : Nat) : Plane :=
  ((p.drop (i * T)).take T).map (fun row => (row.drop (j * T)).take T)

/-- One cell of the model's output grid: probability and the two
sub-cell offset fractions. -/
structure CellPred where
  p : ℚ
  dy : ℚ
  dx : ℚ
deriving DecidableEq

/-- The opaque Keras model: its declared input edge
(`model.input_shape[1]`, equal to `model.layers[0].output_shape[0][1]`)
and the raw grid prediction `model.predict` returns for a tile. -/
structure KModel where
  inputEdge : Nat
  predictRaw : Plane → List (List CellPred)

/-- Well-formedness of a grid prediction with respect to the tile
edge: the spatial dimensions are square (every row as long as the
number of rows) and the cell size `image_size / G` is an integer
(`image_size % G == 0`; for the empty grid `G = 0` this demands
`image_size = 0`, so a nonempty tile rejects an empty grid). -/
def gridOk (pred : List (List CellPred)) (imageSize : Nat) : Bool :=
  pred.all (fun row => row.length == pred.length) &&
    (imageSize % pred.length == 0)

/-- Decoding of a well-formed grid prediction: for each grid cell
`(row, col)` whose probability exceeds the 0.5 threshold, the
coordinate is the cell's pixel origin plus the fractional offset scaled
by the cell size `image_size / G`; first component is the row
coordinate `r`, second the column coordinate `c`, emitted row-major
over grid cells. -/
def decodeGrid (pred : List (List CellPred)) (imageSize : Nat) :
    List (ℚ × ℚ) :=
  let G := pred.length
  let cell : ℚ := (imageSize : ℚ) / (G : ℚ)
  pred.enum.flatMap (fun rc =>
    rc.2.enum.filterMap (fun cc =>
      if (1 : ℚ) / 2 < cc.2.p then
        some ((rc.1 : ℚ) * cell + cc.2.dy * cell,
              (cc.1 : ℚ) * cell + cc.2.dx * cell)
      else none))

/-- Modelled from the spec: `deepblink.data.get_coordinate_list`
(imported by cli.py line 40 but its module is not in the source tree).
Per the spec's GridDecoder contract it fails with a ShapeError when the
grid prediction's spatial dimensions are not square or are not
compatible with an integer cell size, and otherwise decodes each
above-threshold cell into a tile-local coordinate. -/
def get_coordinate_list (pred : List (List CellPred)) (imageSize : Nat) :
    Except String (List (ℚ × ℚ)) :=
  if gridOk pred imageSize then .ok (decodeGrid pred imageSize)
  else .error "grid prediction is not square or has no integer cell size"

/-- The power-of-two test of cli.py line 140
(`math.log(image.shape[0], 2).is_integer()`), embedded as an exact
power-of-two predicate; any exponent witnessing `n = 2 ^ k` satisfies
`k < n + 1`, so searching `0..n` is exhaustive. -/
def isPow2 (n : Nat) : Bool := (List.range (n + 1)).any (fun k => n == 2 ^ k)

/-- Embedding of `_predict` (cli.py lines 136-149): raise unless the
tile is square, of power-of-two edge, and of the model's declared input
edge; otherwise decode the model's grid prediction into the pair of
coordinate component lists `(coord[..., 0], coord[..., 1])`. -/
def pyPredict (image : Plane) (m : KModel) :
    Except String (List ℚ × List ℚ) :=
  if planeH image ≠ planeW image then
    .error "Image shape must be square"
  else if ¬ isPow2 (planeH image) then
    .error "Image shape must a power of two"
  else if planeH image ≠ m.inputEdge then
    .error "Image shape must match model"
  else
    match get_coordinate_list (m.predictRaw image) m.inputEdge with
    | .error e => .error e
    | .ok coord => .ok (coord.map Prod.fst, coord.map Prod.snd)

/-- The nested tile loop of `predict_baseline` (cli.py lines 179-186):
for every tile row `i` and tile column `j`, call `_predict` and extend
the accumulators with `r + j * input_size` and `c + i * input_size`,
exactly as the code writes them. -/
def tileLoop (m : KModel) (padded : Plane) (T nR nC : Nat) :
    Except String (List ℚ × List ℚ) :=
  (List.range nR).foldlM (fun acc i =>
    (List.range nC).foldlM (fun acc' j => do
      let rc ← pyPredict (tileAt padded T i j) m
      pure (acc'.1 ++ rc.1.map (fun r => r + ((j * T : Nat) : ℚ)),
            acc'.2 ++ rc.2.map (fun c => c + ((i * T : Nat) : ℚ))))
      acc) ([], [])

/-- Embedding of cli.py lines 188-193: `np.where((coords[0] <
image.shape[1]) & (coords[1] < image.shape[0]), coords, None)` followed
by transposition, where `image` is by then the padded plane.  Entries
failing the condition are replaced by `None` in both components (the
broadcast mask hits both rows); nothing is removed from the sequence. -/
def whereFilter (rs cs : List ℚ) (padH padW : Nat) :
    List (Option ℚ × Option ℚ) :=
  (rs.zip cs).map (fun rc =>
    if rc.1 < (padW : ℚ) ∧ rc.2 < (padH : ℚ) then (some rc.1, some rc.2)
    else (none, none))

/-- Padding, tiling, stitching and filtering of `predict_baseline`
(cli.py lines 168-193), applied to the already normalised plane. -/
def tilingStage (p1 : Plane) (m : KModel) :
    Except String (List (Option ℚ × Option ℚ)) :=
  let T := m.inputEdge
  let H := planeH p1
  let W := planeW p1
  let padB := next_multiple H T - H
  let padR := next_multiple W T - W
  let padded := padReflect p1 padB padR
  do
    let rc ← tileLoop m padded T ((H + padB) / T) ((W + padR) / T)
    pure (whereFilter rc.1 rc.2 (H + padB) (W + padR))

/-- Embedding of `predict_baseline` (cli.py lines 152-193).  The first
component of the result is the caller-visible value of the `image`
argument after the call: the in-place `image /= np.max(image)` mutates
the caller's array (after `np.max` has been evaluated, so an empty
array raises before any mutation), while the later `np.pad` only
rebinds the local name.  The second component is the returned row list,
or the propagated exception. -/
def predict_baseline (image : Plane) (m : KModel) :
    Plane × Except String (List (Option ℚ × Option ℚ)) :=
  match npMax image with
  | .error e => (image, .error e)
  | .ok mx => (divPlane image mx, tilingStage (divPlane image mx) m)

/-! ### Axis handling and assembly (`src/deepblink/cli/_predict.py`) -/

/-- Axis labels, drawn from the canonical set. -/
inductive Ax
  | c | t | z | y | x
deriving DecidableEq

/-- The canonical axis order `["c", "t", "z", "y", "x"]`
(_predict.py line 255). -/
def axisOrder : List Ax := [.c, .t, .z, .y, .x]

/-- The augmentation loop of `predict_adaptive` (_predict.py lines
259-262): for every canonical label missing from the descriptor, append
a trailing singleton axis to the image and the label to the descriptor.
Only the label list is tracked. -/
def augmentShape (shape : List Ax) : List Ax :=
  axisOrder.foldl (fun sh i => if i ∈ sh then sh else sh ++ [i]) shape

/-- One step of the rearrangement loop of `predict_adaptive`
(_predict.py line 268): `shape.insert(destination,
shape.pop(shape.index(name)))`.  When `name` occurs in the list — which
the preceding augmentation guarantees for every canonical label — the
popped element is `name` itself. -/
def moveStep (sh : List Ax) (dest : Nat) (name : Ax) : List Ax :=
  (sh.eraseIdx (sh.indexOf name)).insertIdx dest name

/-- The rearrangement loop of `predict_adaptive` (_predict.py lines
265-268) applied to the label list (mirroring the `np.moveaxis` calls
performed on the image). -/
def rearrangeShape (shape : List Ax) : List Ax :=
  axisOrder.enum.foldl (fun sh dn => moveStep sh dn.1 dn.2) shape

/-- One row of the detection table: `predict_single` (_predict.py lines
240-251) builds columns `y`, `x`, `c`, `t`, `z` and optionally `i`. -/
structure Row where
  y : ℚ
  x : ℚ
  c : Nat
  t : Nat
  z : Nat
  i : Option ℚ
deriving DecidableEq

/-- Pixel lookup at integer indices, 0 outside bounds (used for the
clipped intensity neighbourhood). -/
def intPix (p : Plane) (a b : ℤ) : ℚ :=
  if 0 ≤ a ∧ a < (planeH p : ℤ) ∧ 0 ≤ b ∧
      b < (((p.getD a.toNat []).length : Nat) : ℤ) then
    pixGet p a.toNat b.toNat
  else 0

/-- Sum of the plane values in the square neighbourhood of side
`2 * radius + 1` centred on the rounded coordinate, clipped to the
plane bounds. -/
def integrateSquare (p : Plane) (yx : ℚ × ℚ) (radius : Nat) : ℚ :=
  let cy : ℤ := round yx.1
  let cx : ℤ := round yx.2
  ((List.range (2 * radius + 1)).flatMap (fun a =>
    (List.range (2 * radius + 1)).map (fun b =>
      intPix p (cy - radius + a) (cx - radius + b)))).sum

/-- Modelled from the spec: `deepblink.inference.get_intensities`
(imported by _predict.py line 11 but its module is not in the source
tree).  Per its contract it returns one aggregate per coordinate,
aligned by index. -/
def get_intensities (p : Plane) (coords : List (ℚ × ℚ)) (radius : Nat) :
    List ℚ :=
  coords.map (fun yx => integrateSquare p yx radius)

/-- Embedding of `HandlePredict.predict_single` (_predict.py lines
240-251).  The per-plane coordinate prediction `deepblink.inference.predict`
is not in the source tree and is passed as the opaque function `pred`;
rows are the `(y, x)` coordinate pairs tagged with the plane's
`(c, t, z)` indices, plus the intensity column `i` exactly when a
radius is given. -/
def predict_single (pred : Plane → List (ℚ × ℚ)) (radius : Option Nat)
    (img : Plane) (cIdx tIdx zIdx : Nat) : List Row :=
  let coords := pred img
  match radius with
  | none => coords.map (fun yx => ⟨yx.1, yx.2, cIdx, tIdx, zIdx, none⟩)
  | some r =>
    (coords.zip (get_intensities img coords r)).map
      (fun ci => ⟨ci.1.1, ci.1.2, cIdx, tIdx, zIdx, some ci.2⟩)

/-- The c/t/z iteration of `predict_adaptive` (_predict.py lines
272-278): `df = df.append(curr_df)` over `enumerate` of the three
leading axes of the canonically ordered image, channel outermost, then
time, then z. -/
def predict_adaptive_table (pred : Plane → List (ℚ × ℚ))
    (radius : Option Nat) (img5 : List (List (List Plane))) : List Row :=
  img5.enum.foldl (fun df ct =>
    ct.2.enum.foldl (fun df' tt =>
      tt.2.enum.foldl (fun df'' zt =>
        df'' ++ predict_single pred radius zt.2 ct.1 tt.1 zt.1) df') df) []

/-- Modelled from the spec: `deepblink.util.delete_non_unique_columns`
(imported by _predict.py line 18 but its module is not in the source
tree): drop any column other than `y`, `x` whose distinct-value count
is at most 1. -/
def delete_non_unique_columns (cols : List (String × List ℚ)) :
    List (String × List ℚ) :=
  cols.filter (fun col =>
    col.1 == "y" || col.1 == "x" || decide (2 ≤ col.2.dedup.length))

/-! ### Concrete instances used in counterexamples and witnesses -/

/-- Stub model of input edge 2 reporting one detection at tile-local
(0, 0) in every tile: a 1×1 grid (cell size 2) with probability 1 and
zero offsets. -/
def mC1 : KModel := ⟨2, fun _ => [[⟨1, 0, 0⟩]]⟩

/-- A 4×2 all-ones plane: two tile rows and one tile column at edge 2. -/
def imgC1 : Plane := [[1, 1], [1, 1], [1, 1], [1, 1]]

/-- Stub model of input edge 2 reporting one detection at tile-local
(1, 1) in every tile: a 2×2 grid (cell size 1) whose cell (1, 1) has
probability 1 and zero offsets. -/
def mC2 : KModel :=
  ⟨2, fun _ => [[⟨0, 0, 0⟩, ⟨0, 0, 0⟩], [⟨0, 0, 0⟩, ⟨1, 0, 0⟩]]⟩

/-- A 3×3 all-ones plane: padded to 4×4 at tile edge 2. -/
def imgC2 : Plane := [[1, 1, 1], [1, 1, 1], [1, 1, 1]]

/-- Stub model of input edge 1 reporting no detections. -/
def mC3 : KModel := ⟨1, fun _ => [[⟨0, 0, 0⟩]]⟩

/-- Stub model of input edge 2 reporting one detection at tile-local
(0, 0). -/
def mC5 : KModel := ⟨2, fun _ => [[⟨1, 0, 0⟩]]⟩

/-- Stub model of input edge 2 whose grid prediction is malformed: two
rows of one cell each, so the grid's spatial dimensions 2×1 are not
square. -/
def mC5bad : KModel := ⟨2, fun _ => [[⟨1, 0, 0⟩], [⟨1, 0, 0⟩]]⟩

/-- A 3×3 plane with distinct entries, used to exhibit the reflect
padding. -/
def pC4 : Plane := [[1, 2, 3], [4, 5, 6], [7, 8, 9]]

/-- Stub model of input edge 1 reporting no detections. -/
def mC10 : KModel := ⟨1, fun _ => [[⟨0, 0, 0⟩]]⟩

/-! ### Helper lemmas -/

/-- A left fold of `max` stays among the start value and the list. -/
theorem foldl_max_mem (l : List ℚ) (a : ℚ) : l.foldl max a ∈ a :: l := by
  induction l generalizing a with
  | nil => simp
  | cons b bs ih =>
    rw [List.foldl_cons]
    rcases List.mem_cons.1 (ih (max a b)) with h | h
    · rw [h]
      rcases max_choice a b with hm | hm <;> rw [hm] <;> simp
    · exact List.mem_cons_of_mem _ (List.mem_cons_of_mem _ h)

/-- `npMax` returns an element of the plane. -/
theorem npMax_mem {p : Plane} {mx : ℚ} (h : npMax p = .ok mx) :
    mx ∈ p.flatten := by
  unfold npMax at h
  rcases hf : p.flatten with _ | ⟨v, vs⟩ <;> rw [hf] at h
  · exact absurd h (by simp)
  · have hv : vs.foldl max v = mx := by
      simpa using h
    rw [← hv]
    exact foldl_max_mem vs v

/-- Flattening commutes with the elementwise division of `divPlane`. -/
theorem flatten_divPlane (p : Plane) (m : ℚ) :
    (divPlane p m).flatten = p.flatten.map (fun v => v / m) := by
  unfold divPlane
  induction p with
  | nil => rfl
  | cons r rs ih => simp only [List.map_cons, List.flatten_cons, ih,
      List.map_append]

/-- If mapping a function over a list returns the list itself, the
function fixes every element. -/
theorem map_eq_self_forall {α : Type} {f : α → α} :
    ∀ {l : List α}, l.map f = l → ∀ x ∈ l, f x = x := by
  intro l
  induction l with
  | nil => intro _ x hx; cases hx
  | cons a as ih =>
    intro h x hx
    rw [List.map_cons] at h
    injection h with h1 h2
    rcases List.mem_cons.1 hx with rfl | hx'
    · exact h1
    · exact ih h2 x hx'

/-! ### C1 -/

/-- C1: evaluation of the embedded `predict_baseline` on the 4×2
all-ones plane with tile edge 2 and the stub model reporting one
detection at tile-local (0, 0) in every tile.  The tile at
(tile_row, tile_col) = (1, 0) contributes the output row (0, 2): the
code adds the tile column index to the row coordinate and the tile row
index to the column coordinate (cli.py lines 182-183), whereas the
claim requires abs_y = local_y + tile_row * tile_edge = 2 and
abs_x = local_x + tile_col * tile_edge = 0. -/
theorem C1_tile_remap_code_eval :
    predict_baseline imgC1 mC1 =
      (imgC1, .ok [(some 0, some 0), (some 0, some 2)]) := by
  with_unfolding_all rfl

/-! ### C2 -/

/-- C2: evaluation of the embedded `predict_baseline` on the 3×3
all-ones plane with tile edge 2 and the stub model reporting one
detection at tile-local (1, 1) in every tile.  The returned sequence
contains the rows (3, 1), (1, 3) and (3, 3) although the original
height and width are 3: the bounds filter of cli.py lines 189-191
compares the mixed-up coordinates against the padded 4×4 shape, so no
padding-only detection is dropped. -/
theorem C2_bounds_filter_code_eval :
    predict_baseline imgC2 mC2 =
      (imgC2, .ok [(some 1, some 1), (some 3, some 1),
                   (some 1, some 3), (some 3, some 3)]) := by
  with_unfolding_all rfl

/-! ### C3 -/

/-- C3 counterexample: at the 1×1 zero plane the maximum is 0, yet the
normalisation step does not fail — numpy float division by zero raises
no exception, so the division proceeds. -/
theorem C3_zero_max_counterexample :
    npMax [[(0 : ℚ)]] = .ok 0 ∧ normalizeStep [[(0 : ℚ)]] = .ok [[0]] := by
  constructor <;> with_unfolding_all rfl

/-- C3 amended: the normalisation step fails only on an empty plane
(np.max of a zero-size array raises); for any nonempty plane — zero
maximum included — it divides every entry by the maximum without any
degeneracy check, and `predict_baseline` hands exactly the divided
plane to the padding and tiling stage. -/
theorem C3_normalization_amended (p : Plane) :
    (p.flatten = [] →
      normalizeStep p =
        .error "zero-size array to reduction operation maximum") ∧
    (∀ mx, npMax p = .ok mx →
      normalizeStep p = .ok (divPlane p mx) ∧
      ∀ m : KModel,
        predict_baseline p m =
          (divPlane p mx, tilingStage (divPlane p mx) m)) := by
  constructor
  · intro h
    simp [normalizeStep, npMax, h, Bind.bind, Except.bind]
  · intro mx hmx
    constructor
    · simp [normalizeStep, hmx, Bind.bind, Except.bind, Pure.pure,
        Except.pure]
    · intro m
      simp [predict_baseline, hmx]

/-- C3 amended, instantiated: the empty plane makes the step fail, and
the 1×1 plane [[4]] is divided by its maximum 4 before the tiling
stage. -/
theorem C3_normalization_amended_witness :
    normalizeStep ([] : Plane) =
      .error "zero-size array to reduction operation maximum" ∧
    predict_baseline [[(4 : ℚ)]] mC3 =
      (divPlane [[(4 : ℚ)]] 4, tilingStage (divPlane [[(4 : ℚ)]] 4) mC3) ∧
    divPlane [[(4 : ℚ)]] 4 = [[1]] := by
  refine ⟨(C3_normalization_amended []).1 rfl,
    ((C3_normalization_amended [[(4 : ℚ)]]).2 4 ?_).2 mC3, ?_⟩
  · with_unfolding_all rfl
  · with_unfolding_all rfl

/-! ### C10 -/

/-- C10 counterexample: at the 1×1 plane [[1]] the maximum is nonzero,
yet after the call the caller's array holds exactly its original
values, so the operation does leave this input unchanged. -/
theorem C10_unchanged_counterexample :
    npMax [[(1 : ℚ)]] = .ok 1 ∧
    predict_baseline [[(1 : ℚ)]] mC10 = ([[1]], .ok []) := by
  constructor <;> with_unfolding_all rfl

/-- C10 amended: `predict_baseline` mutates its input in place — for
every plane with maximum `mx ≠ 0`, after the call the caller's array
holds the original values divided by `mx`, and whenever `mx ≠ 1` the
values really change. -/
theorem C10_inplace_amended (image : Plane) (m : KModel) (mx : ℚ)
    (hmx : npMax image = .ok mx) (hmx0 : mx ≠ 0) :
    (predict_baseline image m).1 = divPlane image mx ∧
    (mx ≠ 1 → (predict_baseline image m).1 ≠ image) := by
  have hfst : (predict_baseline image m).1 = divPlane image mx := by
    simp [predict_baseline, hmx]
  refine ⟨hfst, fun h1 heq => ?_⟩
  rw [hfst] at heq
  have hflat : image.flatten.map (fun v => v / mx) = image.flatten := by
    rw [← flatten_divPlane, heq]
  have hdiv : mx / mx = mx := map_eq_self_forall hflat mx (npMax_mem hmx)
  rw [div_self hmx0] at hdiv
  exact h1 hdiv.symm

/-- Evaluating `getD` on a mapped range below the bound. -/
theorem getD_range_map {α : Type} (f : Nat → α) (d : α) {n i : Nat}
    (h : i < n) : ((List.range n).map f).getD i d = f i := by
  rw [List.getD_eq_getElem?_getD, List.getElem?_map, List.getElem?_range h]
  rfl

/-- Reflect-mode padding leaves in-range indices unchanged. -/
theorem reflectIdx_of_lt {n i : Nat} (h : i < n) : reflectIdx n i = i := by
  unfold reflectIdx
  by_cases h1 : n ≤ 1
  · have h0 : i = 0 := by omega
    simp [h1, h0]
  · have h2 : i < 2 * n - 2 := by omega
    rw [if_neg h1, Nat.mod_eq_of_lt h2, if_pos h]

/-- Reflect-mode padding mirrors the first `n - 1` positions beyond the
boundary across the last element. -/
theorem reflectIdx_mirror {n k : Nat} (h2 : k + 2 ≤ n) :
    reflectIdx n (n + k) = n - 2 - k := by
  unfold reflectIdx
  have hn : ¬ n ≤ 1 := by omega
  rw [if_neg hn]
  rcases Nat.lt_or_ge (n + k) (2 * n - 2) with hlt | hge
  · rw [Nat.mod_eq_of_lt hlt]
    have hnot : ¬ (n + k) < n := by omega
    rw [if_neg hnot]
    omega
  · have heq : n + k = 2 * n - 2 := by omega
    rw [heq, Nat.mod_self, if_pos (by omega)]
    omega

/-- The ceiling multiple is at least the value. -/
theorem le_next_multiple (H T : Nat) (hT : 0 < T) :
    H ≤ next_multiple H T := by
  unfold next_multiple
  have h1 := Nat.div_add_mod' (H + T - 1) T
  have h2 : (H + T - 1) % T < T := Nat.mod_lt _ hT
  omega

/-- The ceiling multiple is divisible by the tile edge. -/
theorem next_multiple_mod (H T : Nat) : next_multiple H T % T = 0 :=
  Nat.mul_mod_left _ _

/-- Height of the reflect-padded plane. -/
theorem planeH_padReflect (p : Plane) (padB padR : Nat) :
    planeH (padReflect p padB padR) = planeH p + padB := by
  simp [planeH, padReflect]

/-- Width of the reflect-padded plane (its first row exists whenever
the original height is positive). -/
theorem planeW_padReflect (p : Plane) (padB padR : Nat)
    (hH : 0 < planeH p) :
    planeW (padReflect p padB padR) = planeW p + padR := by
  obtain ⟨n, hn⟩ : ∃ n, planeH p + padB = n + 1 :=
    ⟨planeH p + padB - 1, by omega⟩
  unfold padReflect planeW
  rw [hn, List.range_succ_eq_map, List.map_cons]
  simp

/-- Pixels of the reflect-padded plane come from the reflected index
pair. -/
theorem padReflect_pix (p : Plane) (padB padR : Nat) {i j : Nat}
    (hi : i < planeH p + padB) (hj : j < planeW p + padR) :
    pixGet (padReflect p padB padR) i j =
      pixGet p (reflectIdx (planeH p) i) (reflectIdx (planeW p) j) := by
  show ((padReflect p padB padR).getD i []).getD j 0 = _
  unfold padReflect
  rw [getD_range_map _ _ hi, getD_range_map _ _ hj]

/-! ### C4 -/

/-- C4: for every plane and tile edge, the padding amounts of
cli.py lines 168-169 equal the ceiling formulas, reflect-padding is
applied on the bottom and right edges only (the original region is
preserved and the padded rows and columns mirror across the
boundary), and the padded dimensions are exact multiples of the tile
edge. -/
theorem C4_padding (p : Plane) (T padB padR : Nat) (hT : 0 < T)
    (hH : 0 < planeH p)
    (hB : padB = next_multiple (planeH p) T - planeH p)
    (hR : padR = next_multiple (planeW p) T - planeW p) :
    padB = (planeH p + T - 1) / T * T - planeH p ∧
    padR = (planeW p + T - 1) / T * T - planeW p ∧
    planeH (padReflect p padB padR) = planeH p + padB ∧
    planeW (padReflect p padB padR) = planeW p + padR ∧
    (planeH p + padB) % T = 0 ∧
    (planeW p + padR) % T = 0 ∧
    (∀ i j, i < planeH p → j < planeW p →
      pixGet (padReflect p padB padR) i j = pixGet p i j) ∧
    (∀ k j, k < padB → k + 2 ≤ planeH p → j < planeW p →
      pixGet (padReflect p padB padR) (planeH p + k) j =
        pixGet p (planeH p - 2 - k) j) ∧
    (∀ i k, i < planeH p → k < padR → k + 2 ≤ planeW p →
      pixGet (padReflect p padB padR) i (planeW p + k) =
        pixGet p i (planeW p - 2 - k)) := by
  have hBle := le_next_multiple (planeH p) T hT
  have hRle := le_next_multiple (planeW p) T hT
  have hBsum : planeH p + padB = next_multiple (planeH p) T := by omega
  have hRsum : planeW p + padR = next_multiple (planeW p) T := by omega
  refine ⟨by rw [hB]; rfl, by rw [hR]; rfl,
    planeH_padReflect p padB padR, planeW_padReflect p padB padR hH,
    by rw [hBsum]; exact next_multiple_mod _ _,
    by rw [hRsum]; exact next_multiple_mod _ _, ?_, ?_, ?_⟩
  · intro i j hi hj
    rw [padReflect_pix p padB padR (by omega) (by omega),
      reflectIdx_of_lt hi, reflectIdx_of_lt hj]
  · intro k j hk h2 hj
    rw [padReflect_pix p padB padR (by omega) (by omega),
      reflectIdx_mirror h2, reflectIdx_of_lt hj]
  · intro i k hi hk h2
    rw [padReflect_pix p padB padR (by omega) (by omega),
      reflectIdx_of_lt hi, reflectIdx_mirror h2]

/-- C4 instantiated on a 3×3 plane with tile edge 2: one padded row and
column, padded size 4×4, original region preserved, and the padded row
and column mirror rows and columns across the boundary. -/
theorem C4_padding_witness :
    (3 + 1) % 2 = 0 ∧
    pixGet (padReflect pC4 1 1) 0 0 = 1 ∧
    pixGet (padReflect pC4 1 1) 3 0 = 4 ∧
    pixGet (padReflect pC4 1 1) 0 3 = 2 := by
  have h := C4_padding pC4 2 1 1 (by decide) (by decide) (by decide)
    (by decide)
  refine ⟨h.2.2.2.2.1, ?_, ?_, ?_⟩
  · rw [h.2.2.2.2.2.2.1 0 0 (by decide) (by decide)]
    with_unfolding_all rfl
  · show pixGet (padReflect pC4 1 1) (planeH pC4 + 0) 0 = 4
    rw [h.2.2.2.2.2.2.2.1 0 0 (by decide) (by decide) (by decide)]
    with_unfolding_all rfl
  · show pixGet (padReflect pC4 1 1) 0 (planeW pC4 + 0) = 2
    rw [h.2.2.2.2.2.2.2.2 0 0 (by decide) (by decide) (by decide)]
    with_unfolding_all rfl

/-- The embedded power-of-two check is the exact predicate. -/
theorem isPow2_iff {n : Nat} : isPow2 n = true ↔ ∃ k, n = 2 ^ k := by
  unfold isPow2
  rw [List.any_eq_true]
  constructor
  · rintro ⟨k, _, hk⟩
    exact ⟨k, by simpa using hk⟩
  · rintro ⟨k, rfl⟩
    refine ⟨k, List.mem_range.2 ?_, by simp⟩
    have := Nat.lt_two_pow k
    omega

/-- The grid well-formedness test, spelled out: the grid's spatial
dimensions are square and the grid size divides the tile edge. -/
theorem gridOk_iff {pred : List (List CellPred)} {imageSize : Nat} :
    gridOk pred imageSize = true ↔
      ((∀ row ∈ pred, row.length = pred.length) ∧
        pred.length ∣ imageSize) := by
  unfold gridOk
  simp only [Bool.and_eq_true, List.all_eq_true, beq_iff_eq,
    Nat.dvd_iff_mod_eq_zero]

/-! ### C5 -/

/-- C5 counterexample: the 2×2 tile is square, its edge 2 is a power of
two and equals the stub model's declared input edge, yet `_predict`
raises, because the model's grid prediction is a malformed 2×1 grid and
the decoder's ShapeError propagates — refuting the claimed three-clause
"if and only if" and the "returns without raising" clause. -/
theorem C5_counterexample :
    planeH [[(1 : ℚ), 2], [3, 4]] = planeW [[(1 : ℚ), 2], [3, 4]] ∧
    (∃ k, planeH [[(1 : ℚ), 2], [3, 4]] = 2 ^ k) ∧
    planeH [[(1 : ℚ), 2], [3, 4]] = mC5bad.inputEdge ∧
    pyPredict [[(1 : ℚ), 2], [3, 4]] mC5bad =
      .error "grid prediction is not square or has no integer cell size" :=
  ⟨rfl, ⟨1, rfl⟩, rfl, by with_unfolding_all rfl⟩

/-- C5 amended: `_predict` raises if and only if the tile is not
square, or its edge is not a power of two, or its edge differs from the
model's declared input edge, or the model's grid prediction is
malformed (its spatial dimensions are not square, or the grid size does
not divide the tile edge, so the cell size is no integer — the spec
GridDecoder's ShapeError); when none of these hold it returns the
decoded coordinate lists without raising. -/
theorem C5_predict_checks (image : Plane) (m : KModel) :
    ((∃ e, pyPredict image m = .error e) ↔
      (planeH image ≠ planeW image ∨ ¬ (∃ k, planeH image = 2 ^ k) ∨
        planeH image ≠ m.inputEdge ∨
        ¬ ((∀ row ∈ m.predictRaw image,
              row.length = (m.predictRaw image).length) ∧
            (m.predictRaw image).length ∣ m.inputEdge))) ∧
    (planeH image = planeW image → (∃ k, planeH image = 2 ^ k) →
      planeH image = m.inputEdge →
      (∀ row ∈ m.predictRaw image,
        row.length = (m.predictRaw image).length) →
      (m.predictRaw image).length ∣ m.inputEdge →
      pyPredict image m =
        .ok ((decodeGrid (m.predictRaw image) m.inputEdge).map Prod.fst,
             (decodeGrid (m.predictRaw image) m.inputEdge).map
              Prod.snd)) := by
  by_cases h1 : planeH image = planeW image
  · by_cases h2 : isPow2 (planeH image) = true
    · by_cases h3 : planeH image = m.inputEdge
      · by_cases h4 : gridOk (m.predictRaw image) m.inputEdge = true
        · have hok : pyPredict image m =
              .ok ((decodeGrid (m.predictRaw image) m.inputEdge).map
                    Prod.fst,
                   (decodeGrid (m.predictRaw image) m.inputEdge).map
                    Prod.snd) := by
            unfold pyPredict get_coordinate_list
            rw [if_neg (by simp [h1]), if_neg (by simp [h2]),
              if_neg (by simp [h3]), if_pos h4]
          refine ⟨⟨fun ⟨e, he⟩ => ?_, fun h => ?_⟩, fun _ _ _ _ _ => hok⟩
          · rw [hok] at he
            exact Except.noConfusion he
          · rcases h with h | h | h | h
            · exact absurd h1 h
            · exact absurd (isPow2_iff.1 h2) h
            · exact absurd h3 h
            · exact absurd (gridOk_iff.1 h4) h
        · have herr : pyPredict image m = .error
              "grid prediction is not square or has no integer cell size" := by
            unfold pyPredict get_coordinate_list
            rw [if_neg (by simp [h1]), if_neg (by simp [h2]),
              if_neg (by simp [h3]), if_neg h4]
          refine ⟨⟨fun _ => Or.inr (Or.inr (Or.inr
            (fun hc => h4 (gridOk_iff.2 hc)))), fun _ => ⟨_, herr⟩⟩,
            fun _ _ _ hsq hdvd => absurd (gridOk_iff.2 ⟨hsq, hdvd⟩) h4⟩
      · have herr : pyPredict image m =
            .error "Image shape must match model" := by
          unfold pyPredict
          rw [if_neg (by simp [h1]), if_neg (by simp [h2]), if_pos h3]
        exact ⟨⟨fun _ => Or.inr (Or.inr (Or.inl h3)), fun _ => ⟨_, herr⟩⟩,
          fun _ _ hedge _ _ => absurd hedge h3⟩
    · have herr : pyPredict image m =
          .error "Image shape must a power of two" := by
        unfold pyPredict
        rw [if_neg (by simp [h1]), if_pos h2]
      exact ⟨⟨fun _ => Or.inr (Or.inl (fun hex => h2 (isPow2_iff.2 hex))),
        fun _ => ⟨_, herr⟩⟩,
        fun _ hpow _ _ _ => absurd (isPow2_iff.2 hpow) h2⟩
  · have herr : pyPredict image m = .error "Image shape must be square" := by
      unfold pyPredict
      rw [if_pos h1]
    exact ⟨⟨fun _ => Or.inl h1, fun _ => ⟨_, herr⟩⟩,
      fun hsq _ _ _ _ => absurd hsq h1⟩

/-- C5 amended, instantiated: a square 2×2 tile with a matching stub
model of edge 2 and a well-formed 1×1 grid decodes to the single
coordinate (0, 0) without raising. -/
theorem C5_predict_checks_witness :
    pyPredict [[(1 : ℚ), 2], [3, 4]] mC5 = .ok ([0], [0]) := by
  have h := (C5_predict_checks [[(1 : ℚ), 2], [3, 4]] mC5).2
    rfl ⟨1, rfl⟩ rfl
    (by intro row hrow; simp [mC5] at hrow; subst hrow; rfl) ⟨2, rfl⟩
  rw [h]
  with_unfolding_all rfl

/-! ### C6 -/

/-- Every canonical label occurs in the canonical order. -/
theorem mem_axisOrder (a : Ax) : a ∈ axisOrder := by cases a <;> decide

/-- The augmentation loop only ever adds elements. -/
theorem augment_sub_mono {ord : List Ax} :
    ∀ {sh : List Ax} {a : Ax}, a ∈ sh →
      a ∈ ord.foldl (fun sh i => if i ∈ sh then sh else sh ++ [i]) sh := by
  induction ord with
  | nil => intro sh a h; simpa using h
  | cons o os ih =>
    intro sh a h
    simp only [List.foldl_cons]
    by_cases ho : o ∈ sh
    · simp only [if_pos ho]; exact ih h
    · simp only [if_neg ho]; exact ih (List.mem_append_left _ h)

/-- After the augmentation loop every processed label is present. -/
theorem augment_mem {ord : List Ax} :
    ∀ {sh : List Ax} {a : Ax}, a ∈ ord →
      a ∈ ord.foldl (fun sh i => if i ∈ sh then sh else sh ++ [i]) sh := by
  induction ord with
  | nil => intro sh a h; simp at h
  | cons o os ih =>
    intro sh a h
    simp only [List.foldl_cons]
    rcases List.mem_cons.1 h with rfl | h'
    · by_cases ho : a ∈ sh
      · simp only [if_pos ho]; exact augment_sub_mono ho
      · simp only [if_neg ho]
        exact augment_sub_mono
          (List.mem_append_right _ (List.mem_singleton.2 rfl))
    · by_cases ho : o ∈ sh
      · simp only [if_pos ho]; exact ih h'
      · simp only [if_neg ho]; exact ih h'

/-- The augmentation loop preserves distinctness of the labels. -/
theorem augment_nodup {ord : List Ax} :
    ∀ {sh : List Ax}, sh.Nodup →
      (ord.foldl (fun sh i => if i ∈ sh then sh else sh ++ [i]) sh).Nodup := by
  induction ord with
  | nil => intro sh h; simpa using h
  | cons o os ih =>
    intro sh h
    simp only [List.foldl_cons]
    by_cases ho : o ∈ sh
    · simp only [if_pos ho]; exact ih h
    · simp only [if_neg ho]
      refine ih ?_
      simp [List.nodup_append, h, ho]

/-- For a duplicate-free descriptor, the augmented label list is a
permutation of the canonical order. -/
theorem augment_perm {shape : List Ax} (h : shape.Nodup) :
    List.Perm (augmentShape shape) axisOrder := by
  have hnd : (augmentShape shape).Nodup := augment_nodup h
  have hord : axisOrder.Nodup := by decide
  refine List.perm_of_nodup_nodup_toFinset_eq hnd hord ?_
  ext a
  simp only [List.mem_toFinset]
  exact ⟨fun _ => mem_axisOrder a, fun _ => augment_mem (mem_axisOrder a)⟩

set_option maxRecDepth 10000 in
/-- On every permutation of the canonical order, the rearrangement loop
produces exactly the canonical order (checked over all 120 cases). -/
theorem rearrange_of_perm :
    ∀ sh ∈ axisOrder.permutations', rearrangeShape sh = axisOrder := by
  decide

/-- C6: for every descriptor labelling each axis with a distinct label
from the canonical set (y and x present), appending the missing
canonical labels and running the rearrangement loop yields exactly the
canonical order (c, t, z, y, x) — the defensive post-condition check of
_predict.py line 269 always passes under these hypotheses, so the
failure clause of the claim is vacuously satisfied. -/
theorem C6_axis_alignment (shape : List Ax) (hnd : shape.Nodup)
    (_hy : Ax.y ∈ shape) (_hx : Ax.x ∈ shape) :
    rearrangeShape (augmentShape shape) = axisOrder :=
  rearrange_of_perm _ (List.mem_permutations'.2 (augment_perm hnd))

/-- C6 instantiated at the descriptor (t, y, x). -/
theorem C6_axis_alignment_witness :
    rearrangeShape (augmentShape [Ax.t, Ax.y, Ax.x]) = axisOrder :=
  C6_axis_alignment [Ax.t, Ax.y, Ax.x] (by decide) (by decide) (by decide)

/-- A left fold that appends `f` of each element equals the flat map,
appended to the start value. -/
theorem foldl_eq_append_flatMap {α β : Type} (g : List β → α → List β)
    (f : α → List β) (hg : ∀ init a, g init a = init ++ f a) :
    ∀ (l : List α) (init : List β), l.foldl g init = init ++ l.flatMap f := by
  intro l
  induction l with
  | nil => intro init; simp
  | cons a as ih =>
    intro init
    rw [List.foldl_cons, hg, ih, List.flatMap_cons, List.append_assoc]

/-! ### C7 -/

/-- C7: the table built by the `df.append` loop of _predict.py lines
272-278 equals the flat map over the channel axis outermost, then time,
then z innermost, and every row produced from a plane carries that
plane's (c, t, z) indices. -/
theorem C7_iteration_order (pred : Plane → List (ℚ × ℚ))
    (radius : Option Nat) (img5 : List (List (List Plane))) :
    predict_adaptive_table pred radius img5 =
      img5.enum.flatMap (fun ct =>
        ct.2.enum.flatMap (fun tt =>
          tt.2.enum.flatMap (fun zt =>
            predict_single pred radius zt.2 ct.1 tt.1 zt.1))) ∧
    (∀ cIdx tIdx zIdx img row,
      row ∈ predict_single pred radius img cIdx tIdx zIdx →
      row.c = cIdx ∧ row.t = tIdx ∧ row.z = zIdx) := by
  constructor
  · have h3 : ∀ (cI tI : Nat) (zs : List Plane) (init : List Row),
        zs.enum.foldl (fun df zt =>
          df ++ predict_single pred radius zt.2 cI tI zt.1) init =
          init ++ zs.enum.flatMap (fun zt =>
            predict_single pred radius zt.2 cI tI zt.1) :=
      fun cI tI zs init =>
        foldl_eq_append_flatMap _ _ (fun _ _ => rfl) _ _
    have h2 : ∀ (cI : Nat) (ts : List (List Plane)) (init : List Row),
        ts.enum.foldl (fun df tt =>
          tt.2.enum.foldl (fun df2 zt =>
            df2 ++ predict_single pred radius zt.2 cI tt.1 zt.1) df) init =
          init ++ ts.enum.flatMap (fun tt =>
            tt.2.enum.flatMap (fun zt =>
              predict_single pred radius zt.2 cI tt.1 zt.1)) :=
      fun cI ts init =>
        foldl_eq_append_flatMap _ _
          (fun (init2 : List Row) (tt : Nat × List Plane) =>
            h3 cI tt.1 tt.2 init2) _ _
    have h1 : ∀ (init : List Row),
        img5.enum.foldl (fun df ct =>
          ct.2.enum.foldl (fun df1 tt =>
            tt.2.enum.foldl (fun df2 zt =>
              df2 ++ predict_single pred radius zt.2 ct.1 tt.1 zt.1) df1) df)
          init =
          init ++ img5.enum.flatMap (fun ct =>
            ct.2.enum.flatMap (fun tt =>
              tt.2.enum.flatMap (fun zt =>
                predict_single pred radius zt.2 ct.1 tt.1 zt.1))) :=
      fun init =>
        foldl_eq_append_flatMap _ _
          (fun (init1 : List Row) (ct : Nat × List (List Plane)) =>
            h2 ct.1 ct.2 init1) _ _
    have := h1 []
    rw [List.nil_append] at this
    exact this
  · intro cIdx tIdx zIdx img row hrow
    unfold predict_single at hrow
    cases radius with
    | none =>
      rcases List.mem_map.1 hrow with ⟨yx, _, rfl⟩
      exact ⟨rfl, rfl, rfl⟩
    | some r =>
      rcases List.mem_map.1 hrow with ⟨ci, _, rfl⟩
      exact ⟨rfl, rfl, rfl⟩

/-- C7 instantiated: a single-plane 1×1×1 stack whose prediction is one
coordinate yields exactly that plane's rows in order, tagged
(0, 0, 0). -/
theorem C7_iteration_order_witness :
    predict_adaptive_table (fun _ => [((0 : ℚ), (0 : ℚ))]) none
      [[[[[(1 : ℚ)]]]]] = [⟨0, 0, 0, 0, 0, none⟩] ∧
    (⟨0, 0, 0, 0, 0, none⟩ : Row).c = 0 := by
  constructor
  · rw [(C7_iteration_order (fun _ => [((0 : ℚ), (0 : ℚ))]) none
      [[[[[(1 : ℚ)]]]]]).1]
    with_unfolding_all rfl
  · exact ((C7_iteration_order (fun _ => [((0 : ℚ), (0 : ℚ))]) none
      [[[[[(1 : ℚ)]]]]]).2 0 0 0 [[(1 : ℚ)]] ⟨0, 0, 0, 0, 0, none⟩
      (by simp [predict_single])).1

/-! ### C8 -/

/-- C8: rows of `predict_single` carry an intensity entry exactly when
a radius is given; the table has one row per predicted coordinate, and
when a radius is given the intensity column equals, index by index, the
modelled `get_intensities` of the coordinate list — one aggregate per
coordinate. -/
theorem C8_intensity_column (pred : Plane → List (ℚ × ℚ))
    (radius : Option Nat) (img : Plane) (cIdx tIdx zIdx : Nat) :
    (∀ row ∈ predict_single pred radius img cIdx tIdx zIdx,
      row.i.isSome = radius.isSome) ∧
    (predict_single pred radius img cIdx tIdx zIdx).length =
      (pred img).length ∧
    (∀ rad, radius = some rad →
      (predict_single pred radius img cIdx tIdx zIdx).map Row.i =
        (get_intensities img (pred img) rad).map some ∧
      get_intensities img (pred img) rad =
        (pred img).map (fun yx => integrateSquare img yx rad)) := by
  refine ⟨?_, ?_, ?_⟩
  · intro row hrow
    unfold predict_single at hrow
    cases radius with
    | none =>
      rcases List.mem_map.1 hrow with ⟨yx, _, rfl⟩
      rfl
    | some r =>
      rcases List.mem_map.1 hrow with ⟨ci, _, rfl⟩
      rfl
  · unfold predict_single
    cases radius with
    | none => rw [List.length_map]
    | some r =>
      rw [List.length_map, List.length_zip, get_intensities,
        List.length_map, min_self]
  · intro rad hrad
    subst hrad
    constructor
    · unfold predict_single
      rw [List.map_map]
      have hlen : (get_intensities img (pred img) rad).length ≤
          (pred img).length := by
        rw [get_intensities, List.length_map]
      calc ((pred img).zip (get_intensities img (pred img) rad)).map
            (Row.i ∘ fun ci => (⟨ci.1.1, ci.1.2, cIdx, tIdx, zIdx,
              some ci.2⟩ : Row))
          = ((pred img).zip (get_intensities img (pred img) rad)).map
            (some ∘ Prod.snd) := rfl
        _ = (((pred img).zip (get_intensities img (pred img) rad)).map
            Prod.snd).map some := by rw [List.map_map]
        _ = (get_intensities img (pred img) rad).map some := by
            rw [List.map_snd_zip _ _ hlen]
    · rfl

/-- C8 instantiated: radius 0 on the plane [[5]] attaches the single
central-pixel intensity 5, aligned with the single coordinate. -/
theorem C8_intensity_column_witness :
    (predict_single (fun _ => [((0 : ℚ), (0 : ℚ))]) (some 0) [[(5 : ℚ)]]
      0 0 0).map Row.i = [some 5] := by
  rw [((C8_intensity_column (fun _ => [((0 : ℚ), (0 : ℚ))]) (some 0)
    [[(5 : ℚ)]] 0 0 0).2.2 0 rfl).1]
  with_unfolding_all rfl

/-! ### C9 -/

/-- C9: after the modelled column pruning, every remaining column is
`y`, is `x`, or has two distinct values across its rows; and the
columns named `y` and `x` are never dropped. -/
theorem C9_column_pruning (cols : List (String × List ℚ)) :
    (∀ col ∈ delete_non_unique_columns cols,
      col.1 = "y" ∨ col.1 = "x" ∨ ∃ a ∈ col.2, ∃ b ∈ col.2, a ≠ b) ∧
    (∀ col ∈ cols, (col.1 = "y" ∨ col.1 = "x") →
      col ∈ delete_non_unique_columns cols) := by
  constructor
  · intro col hcol
    have hp := (List.mem_filter.1 hcol).2
    simp only [Bool.or_eq_true, beq_iff_eq, decide_eq_true_eq] at hp
    rcases hp with (h | h) | h
    · exact Or.inl h
    · exact Or.inr (Or.inl h)
    · refine Or.inr (Or.inr ?_)
      rcases hd : col.2.dedup with _ | ⟨a, rest⟩
      · rw [hd] at h; simp at h
      · rcases rest with _ | ⟨b, rest2⟩
        · rw [hd] at h; simp at h
        · have hnd : (col.2.dedup).Nodup := List.nodup_dedup _
          rw [hd] at hnd
          have hab : a ≠ b := by
            rintro rfl
            exact (List.nodup_cons.1 hnd).1 (List.mem_cons_self a rest2)
          have ha : a ∈ col.2 := List.mem_dedup.1
            (by rw [hd]; exact List.mem_cons_self _ _)
          have hb : b ∈ col.2 := List.mem_dedup.1
            (by rw [hd]; exact List.mem_cons_of_mem _ (List.mem_cons_self _ _))
          exact ⟨a, ha, b, hb, hab⟩
  · intro col hcol hyx
    refine List.mem_filter.2 ⟨hcol, ?_⟩
    rcases hyx with h | h <;> simp [h]

/-- C9 instantiated: in a table whose `y` column is constant and whose
`i` column is not, pruning keeps `y` (never dropped) and the kept `i`
column indeed has two distinct values. -/
theorem C9_column_pruning_witness :
    ("y", [(1 : ℚ), 1]) ∈ delete_non_unique_columns
      [("y", [(1 : ℚ), 1]), ("c", [0, 0]), ("i", [1, 2])] ∧
    ((("i", [(1 : ℚ), 2]) : String × List ℚ).1 = "y" ∨
      (("i", [(1 : ℚ), 2]) : String × List ℚ).1 = "x" ∨
      ∃ a ∈ [(1 : ℚ), 2], ∃ b ∈ [(1 : ℚ), 2], a ≠ b) := by
  constructor
  · exact (C9_column_pruning
      [("y", [(1 : ℚ), 1]), ("c", [0, 0]), ("i", [1, 2])]).2
      ("y", [(1 : ℚ), 1]) (by simp) (Or.inl rfl)
  · exact (C9_column_pruning
      [("y", [(1 : ℚ), 1]), ("c", [0, 0]), ("i", [1, 2])]).1
      ("i", [(1 : ℚ), 2]) (by with_unfolding_all decide)

/-- C10 amended, instantiated at the plane [[2]] with maximum 2. -/
theorem C10_inplace_amended_witness :
    (predict_baseline [[(2 : ℚ)]] mC10).1 = divPlane [[(2 : ℚ)]] 2 ∧
    (predict_baseline [[(2 : ℚ)]] mC10).1 ≠ [[(2 : ℚ)]] := by
  have h := C10_inplace_amended [[(2 : ℚ)]] mC10 2
    (by with_unfolding_all rfl) (by norm_num)
  exact ⟨h.1, h.2 (by norm_num)⟩

end DeepBlink
